import Mathlib

/-!
Formal model of the GTG core data layer: the generic hierarchical store
(`base_store.py`) and its saved-search (`saved_searches.py`), tag
(`tags2.py`) and task (`tasks2.py`) specializations.

Modelling conventions, used throughout:

* Python objects are identified by their `id` field.  A store carries a
  `heap`: an association list from identifiers to object records.  Lists of
  objects (the roots sequence `data`, the `children` lists) are modelled as
  lists of identifiers resolved through the heap, so that aliasing
  (mutating `lookup[pid].children` mutates the same object that sits in the
  forest) is represented faithfully.
* The `lookup` dict maps identifiers to objects; since every registration
  is `lookup[item.id] = item`, it is modelled as the insertion-ordered list
  of its keys, with values recovered through the heap.
* `uuid4()` is modelled as an explicit fresh-identifier argument.
* Python exceptions are modelled with `Except`.  Operations that mutate
  before raising return the (partially mutated) store alongside the error.
* Unbounded recursion (the recursive subtree walk of `remove`, the
  recursive task methods) takes an explicit fuel argument; every concrete
  evaluation passes fuel larger than the forest depth, so the fuel case is
  never hit on the states considered.
-/

/-- Python exception kinds raised by the store code. -/
inductive PyErr
  | keyError
  | valueError
  | typeError
deriving Repr, DecidableEq

/-- Association-list read, first binding wins: Python dict access `d[k]`. -/
def aget {κ α : Type} [DecidableEq κ] : List (κ × α) → κ → Option α
  | [], _ => none
  | (k, v) :: t, k2 => if k = k2 then some v else aget t k2

/-- Association-list write in place: Python dict assignment `d[k] = v`
(replaces the existing binding, appends a fresh one). -/
def aset {κ α : Type} [DecidableEq κ] : List (κ × α) → κ → α → List (κ × α)
  | [], k, v => [(k, v)]
  | (k2, v2) :: t, k, v => if k2 = k then (k, v) :: t else (k2, v2) :: aset t k v

/-- Python truthiness of an optional string: `None` and the empty string
are falsy, every other string is truthy. -/
def truthyOpt : Option String → Bool
  | none => false
  | some s => !s.isEmpty

/-- The `SavedSearch` dataclass of saved_searches.py: id, name, query,
optional icon, and the owned children (as identifiers, see the heap
convention). -/
structure SavedSearch where
  id : String
  name : String
  query : String
  icon : Option String
  children : List String
deriving Repr, DecidableEq

/-- The `SavedSearchStore` state: object heap plus the two containers set
up in `__init__` (`self.lookup = {}; self.data = []`).  The same two
containers are the whole state of `BaseStore`, whose methods are modelled
on this store. -/
structure SavedSearchStore where
  heap : List (String × SavedSearch)
  lookup : List String
  data : List String
deriving Repr, DecidableEq

/-- The empty store produced by `SavedSearchStore()`. -/
def SavedSearchStore.empty : SavedSearchStore := ⟨[], [], []⟩

/-- Children list of the object registered under `pid`, read through the
heap ([] when the identifier names no object, which never happens on the
states considered). -/
def SavedSearchStore.childrenOf (s : SavedSearchStore) (pid : String) : List String :=
  match aget s.heap pid with
  | some n => n.children
  | none => []

/-- Mutation `lookup[pid].children.append(cid)` on the heap. -/
def heapAppendChild (h : List (String × SavedSearch)) (pid cid : String) :
    List (String × SavedSearch) :=
  match aget h pid with
  | some n => aset h pid { n with children := n.children ++ [cid] }
  | none => h

/-- Mutation `parent.children.remove(child)` on the heap. -/
def heapEraseChild (h : List (String × SavedSearch)) (pid cid : String) :
    List (String × SavedSearch) :=
  match aget h pid with
  | some n => aset h pid { n with children := n.children.erase cid }
  | none => h

/-- `BaseStore.add(item, parent_id)`: refuse an already registered id
(KeyError); with a truthy parent id, append to that parent's children or
raise KeyError if it is absent; otherwise append to the roots; finally
register in the lookup. -/
def SavedSearchStore.add (s : SavedSearchStore) (item : SavedSearch)
    (parent_id : Option String) : Except PyErr SavedSearchStore :=
  if item.id ∈ s.lookup then
    .error .keyError
  else
    if truthyOpt parent_id then
      match parent_id with
      | some pid =>
        if pid ∈ s.lookup then
          .ok { s with
                heap := aset (heapAppendChild s.heap pid item.id) item.id item,
                lookup := s.lookup ++ [item.id] }
        else
          .error .keyError
      | none => .error .keyError
    else
      .ok { s with
            heap := aset s.heap item.id item,
            data := s.data ++ [item.id],
            lookup := s.lookup ++ [item.id] }

/-- Inner helper `recursive_delete(parent)` of `BaseStore.remove`, walking
one children list: on the child whose id matches, remove it from the list
and delete its id and its direct children's ids from the lookup, then
stop; on a child with a nonempty children list, recurse into it and keep
scanning.  The list argument is the children list of the node `pid`; fuel
bounds the recursion depth. -/
def recursive_delete (item_id : String) :
    Nat → SavedSearchStore → String → List String → SavedSearchStore
  | _, s, _, [] => s
  | 0, s, _, _ :: _ => s
  | fuel + 1, s, pid, cid :: rest =>
    match aget s.heap cid with
    | none => recursive_delete item_id (fuel + 1) s pid rest
    | some child =>
      if child.id = item_id then
        let s2 := { s with heap := heapEraseChild s.heap pid cid }
        { s2 with lookup :=
            child.children.foldl (fun l c => l.erase c) (s2.lookup.erase child.id) }
      else
        if child.children.isEmpty then
          recursive_delete item_id (fuel + 1) s pid rest
        else
          let s2 := recursive_delete item_id fuel s cid child.children
          recursive_delete item_id (fuel + 1) s2 pid rest
  termination_by fuel _ _ l => (fuel, l.length)

/-- The first root object whose `id` field equals `item_id` (the scan
`for item in self.data: if item.id == item_id`). -/
def SavedSearchStore.dataFind (s : SavedSearchStore) (item_id : String) : Option String :=
  s.data.find? (fun did =>
    match aget s.heap did with
    | some n => n.id == item_id
    | none => false)

/-- `BaseStore.remove(item_id)`: KeyError when the id is not in the
lookup; if a root matches, remove it from the roots and delete its id and
its direct children's ids from the lookup; otherwise run
`recursive_delete` over every root that has children. -/
def SavedSearchStore.remove (s : SavedSearchStore) (item_id : String) :
    Except PyErr SavedSearchStore :=
  if item_id ∉ s.lookup then
    .error .keyError
  else
    match s.dataFind item_id with
    | some did =>
      match aget s.heap did with
      | some item =>
        .ok { s with
              data := s.data.erase did,
              lookup := item.children.foldl (fun l c => l.erase c)
                          (s.lookup.erase item.id) }
      | none => .ok s
    | none =>
      .ok (s.data.foldl (fun acc rid =>
             if (acc.childrenOf rid).isEmpty then acc
             else recursive_delete item_id (acc.heap.length + 1) acc rid
                    (acc.childrenOf rid)) s)

/-- `BaseStore.parent(item_id, parent_id)`: look the item up (KeyError if
absent), remove it from the roots (`data.remove`, ValueError if it is not
a root), then append it to the parent's children — the root removal
happens before the parent id is ever looked up, so a missing parent
raises KeyError with the item already removed from the roots.  The pair
returns the error alongside the store as left by the call. -/
def SavedSearchStore.parent (s : SavedSearchStore) (item_id parent_id : String) :
    Except PyErr Unit × SavedSearchStore :=
  if item_id ∉ s.lookup then
    (.error .keyError, s)
  else
    if item_id ∉ s.data then
      (.error .valueError, s)
    else
      let s2 := { s with data := s.data.erase item_id }
      if parent_id ∈ s2.lookup then
        (.ok (), { s2 with heap := heapAppendChild s2.heap parent_id item_id })
      else
        (.error .keyError, s2)

/-- `BaseStore.unparent(item_id, parent_id)`: scan the parent's children
for the matching id, append it to the roots and remove it from the
children; KeyError when the parent is absent or no child matches. -/
def SavedSearchStore.unparent (s : SavedSearchStore) (item_id parent_id : String) :
    Except PyErr Unit × SavedSearchStore :=
  if parent_id ∉ s.lookup then
    (.error .keyError, s)
  else
    match (s.childrenOf parent_id).find? (fun cid =>
        match aget s.heap cid with
        | some n => n.id == item_id
        | none => false) with
    | some cid =>
      (.ok (), { s with
                 data := s.data ++ [cid],
                 heap := heapEraseChild s.heap parent_id cid })
    | none => (.error .keyError, s)

/-- `BaseStore.count(root_only)`: length of the roots or of the lookup. -/
def SavedSearchStore.count (s : SavedSearchStore) (root_only : Bool) : Nat :=
  if root_only then s.data.length else s.lookup.length

/-- `SavedSearchStore.new(name, query, parent)`: build the search with a
fresh uuid (the explicit `search_id` argument), go through `add` when a
parent is given, otherwise append to the roots and register. -/
def SavedSearchStore.new (s : SavedSearchStore) (name query : String)
    (parent : Option String) (search_id : String) :
    Except PyErr (SavedSearchStore × SavedSearch) :=
  let search : SavedSearch := ⟨search_id, name, query, none, []⟩
  if truthyOpt parent then
    (s.add search parent).map (fun s2 => (s2, search))
  else
    .ok ({ s with
           heap := aset s.heap search_id search,
           data := s.data ++ [search_id],
           lookup := s.lookup ++ [search_id] }, search)

/-- An XML `savedSearch` element as produced and consumed by the
serializers: the attributes `id`, `name`, `query` and the optional
`parent` attribute.  `str()` of an identifier is the identifier itself
under the string-identifier convention. -/
structure SSElem where
  id : String
  name : String
  query : String
  parent : Option String
deriving Repr, DecidableEq

/-- The one-level parent map of `SavedSearchStore.to_xml`: for every root
in `data`, bind each direct child's id to the root's id.  Children below
the first level are never visited. -/
def SavedSearchStore.parentMap (s : SavedSearchStore) : List (String × String) :=
  s.data.foldl (fun pm rid =>
    match aget s.heap rid with
    | some r => r.children.foldl (fun pm2 cid => aset pm2 cid rid) pm
    | none => pm) []

/-- `SavedSearchStore.to_xml()`: one element per lookup entry, in
insertion order, carrying id, name and query, plus a `parent` attribute
when the one-level parent map has a binding (the icon field is never
written).  The surrounding `SavedSearches` container element is implicit
in the returned list. -/
def SavedSearchStore.to_xml (s : SavedSearchStore) : List SSElem :=
  let pm := s.parentMap
  s.lookup.filterMap (fun k =>
    match aget s.heap k with
    | some search => some ⟨search.id, search.name, search.query, aget pm search.id⟩
    | none => none)

/-- The `SavedSearch(id=..., name=..., query=...)` object `from_xml`
constructs for one element. -/
def mkSearch (e : SSElem) : SavedSearch := ⟨e.id, e.name, e.query, none, []⟩

/-- `SavedSearchStore.from_xml(xml)`: first pass adds every element with a
falsy `parent` attribute as a root and drops it from the worklist; second
pass adds the remaining elements under their recorded parent.  A failing
`add` propagates its exception. -/
def SavedSearchStore.from_xml (s : SavedSearchStore) (elems : List SSElem) :
    Except PyErr SavedSearchStore := do
  let s1 ← (elems.filter (fun e => !truthyOpt e.parent)).foldlM
    (fun st e => st.add (mkSearch e) none) s
  (elems.filter (fun e => truthyOpt e.parent)).foldlM
    (fun st e => st.add (mkSearch e) e.parent) s1

/-- Keys of the Python lookup dict of `TagStore`.  `new` registers tags
under their `uuid4` identifier but probes the dict with the tag's name, a
string; a string key never equals a uuid key, exactly as in Python where
`UUID(...) != 'name'`.  Uuids are modelled as naturals. -/
inductive PyKey
  | uuid (n : Nat)
  | str (s : String)
deriving Repr, DecidableEq

/-- The `Tag2` dataclass of tags2.py (children as identifiers, see the
heap convention). -/
structure Tag2 where
  id : Nat
  name : String
  icon : Option String
  color : Option String
  actionable : Bool
  children : List Nat
deriving Repr, DecidableEq

/-- The `TagStore` state: heap of tag objects, the lookup dict as an
association list from `PyKey` to the bound object's uuid, the roots, and
the `used_colors` set (which can contain `None`, hence `Option String`)
in insertion order. -/
structure TagStore where
  heap : List (Nat × Tag2)
  lookup : List (PyKey × Nat)
  data : List Nat
  used_colors : List (Option String)
deriving Repr, DecidableEq

/-- The empty store produced by `TagStore()`. -/
def TagStore.empty : TagStore := ⟨[], [], [], []⟩

/-- `BaseStore.add` specialized to `TagStore`: the dict is keyed by the
tag's uuid, as every registration there is `lookup[item.id] = item`. -/
def TagStore.add (s : TagStore) (item : Tag2) (parent_id : Option Nat) :
    Except PyErr TagStore :=
  if (aget s.lookup (.uuid item.id)).isSome then
    .error .keyError
  else
    match parent_id with
    | some pid =>
      match aget s.lookup (.uuid pid) with
      | some _ =>
        let heap2 :=
          match aget s.heap pid with
          | some n => aset s.heap pid { n with children := n.children ++ [item.id] }
          | none => s.heap
        .ok { s with
              heap := aset heap2 item.id item,
              lookup := aset s.lookup (.uuid item.id) item.id }
      | none => .error .keyError
    | none =>
      .ok { s with
            heap := aset s.heap item.id item,
            data := s.data ++ [item.id],
            lookup := aset s.lookup (.uuid item.id) item.id }

/-- Python `name if not name.startswith('@') else name[1:]`, on the
character list of the name. -/
def stripLeadingAt (name : String) : String :=
  match name.data with
  | '@' :: rest => String.mk rest
  | _ => name

/-- `TagStore.new(name, parent)`: strip a leading `@`, probe the lookup
dict with the stripped name (a string key), and only on a KeyError build
a fresh tag; the probe can never hit because every registration is keyed
by uuid.  The fresh `uuid4()` is the explicit `tid` argument. -/
def TagStore.new (s : TagStore) (name : String) (parent : Option Nat) (tid : Nat) :
    Except PyErr (TagStore × Tag2) :=
  let name2 := stripLeadingAt name
  match aget s.lookup (.str name2) with
  | some oid =>
    .ok (s, (aget s.heap oid).getD ⟨0, name2, none, none, true, []⟩)
  | none =>
    let tag : Tag2 := ⟨tid, name2, none, none, true, []⟩
    match parent with
    | some _ => (s.add tag parent).map (fun s2 => (s2, tag))
    | none =>
      .ok ({ s with
             heap := aset s.heap tid tag,
             data := s.data ++ [tid],
             lookup := aset s.lookup (.uuid tid) tid }, tag)

/-- Rendering of a Gdk `Color` built from three 16-bit channels.
`Gdk.Color.to_string` is an external collaborator; it is modelled as an
injective rendering of the channel triple. -/
def color_to_string (c : Nat × Nat × Nat) : String :=
  "rgb:" ++ toString c.1 ++ "/" ++ toString c.2.1 ++ "/" ++ toString c.2.2

/-- The `while color in self.used_colors` loop of
`TagStore.generate_color`, starting from `color = None`; each iteration
draws the next channel triple from the random stream.  Returns `none`
when the stream runs out while the loop is still spinning. -/
def generate_color_loop (used : List (Option String)) :
    Option String → List (Nat × Nat × Nat) → Option (Option String)
  | color, rand =>
    if color ∈ used then
      match rand with
      | [] => none
      | t :: rest => generate_color_loop used (some (color_to_string t)) rest
    else
      some color

/-- `TagStore.generate_color()`: run the retry loop from `color = None`,
then record and return whatever the loop produced — on a fresh store the
loop body never runs, so the call returns `None` and records `None`,
drawing no channels at all.  The random stream is the explicit `rand`
argument; `none` as overall result marks stream exhaustion. -/
def TagStore.generate_color (s : TagStore) (rand : List (Nat × Nat × Nat)) :
    Option (Option String × TagStore) :=
  match generate_color_loop s.used_colors none rand with
  | some color => some (color, { s with used_colors := s.used_colors ++ [color] })
  | none => none

/-- The task status state machine of tasks2.py. -/
inductive Status
  | ACTIVE
  | DONE
  | DISMISSED
deriving Repr, DecidableEq

/-- Modelled from the spec: `GTG.core.dates.Date` is an external
collaborator (dates.py is not part of the sources).  Per the spec a date
is either absent (`Date.no_date()`, falsy), a fuzzy symbolic date, or a
concrete date; the due-date propagation compares a fuzzy parent date with
a concrete child date, so fuzzy dates carry an effective day used by the
comparison operators, as concrete dates do. -/
inductive Date
  | no_date
  | fuzzy (day : Nat)
  | on (day : Nat)
deriving Repr, DecidableEq

/-- Modelled from the spec: `Date.is_fuzzy()`. -/
def Date.is_fuzzy : Date → Bool
  | .fuzzy _ => true
  | _ => false

/-- Modelled from the spec: Python truthiness of a date — only the absent
date is falsy. -/
def Date.py_bool : Date → Bool
  | .no_date => false
  | _ => true

/-- Effective day of a date, for the comparison operators. -/
def Date.day : Date → Nat
  | .no_date => 0
  | .fuzzy d => d
  | .on d => d

/-- Modelled from the spec: strict comparison of two dates by effective
day. -/
def Date.lt (a b : Date) : Bool := a.day < b.day

/-- Modelled from the spec: `Date.today()`, an arbitrary fixed concrete
day. -/
def Date.today : Date := .on 20000

/-- The `Task2` record of tasks2.py, with the fields touched by
`toggle_status`, `dismiss` and the `due_date` setter (`_date_due` is
spelled `date_due`); `parent` and `children` follow the heap convention.
The remaining fields (content, tags, the other dates) are never read nor
written by these methods and are omitted. -/
structure Task2 where
  id : Nat
  raw_title : String
  status : Status
  parent : Option Nat
  children : List Nat
  date_closed : Date
  date_due : Date
deriving Repr, DecidableEq

/-- A heap of task objects, keyed by identifier. -/
def TaskHeap := List (Nat × Task2)
deriving Repr, DecidableEq

/-- `Task2.toggle_status(propagate)`: an ACTIVE task becomes DONE with a
closed date stamp; any non-ACTIVE task becomes ACTIVE with its closed date
cleared and, when its parent is not ACTIVE, toggles the parent with
`propagate=False` — that flag only suppresses the downward loop, so the
upward re-activation recurses along the whole non-ACTIVE ancestor chain;
finally, when `propagate` is set, every child is toggled with the default
`propagate=True`. -/
def toggle_status : Nat → TaskHeap → Nat → Bool → TaskHeap
  | 0, h, _, _ => h
  | fuel + 1, h, tid, propagate =>
    match aget h tid with
    | none => h
    | some t =>
      let h2 :=
        if t.status = .ACTIVE then
          aset h tid { t with status := .DONE, date_closed := Date.today }
        else
          let h3 := aset h tid { t with status := .ACTIVE, date_closed := .no_date }
          match t.parent with
          | some p =>
            match aget h3 p with
            | some pt =>
              if pt.status ≠ .ACTIVE then toggle_status fuel h3 p false else h3
            | none => h3
          | none => h3
      if propagate then
        t.children.foldl (fun acc c => toggle_status fuel acc c true) h2
      else h2

/-- `Task2.dismiss()`: set DISMISSED and cascade unconditionally to every
child; the closed date is left untouched. -/
def dismiss : Nat → TaskHeap → Nat → TaskHeap
  | 0, h, _ => h
  | fuel + 1, h, tid =>
    match aget h tid with
    | none => h
    | some t =>
      let h2 := aset h tid { t with status := .DISMISSED }
      t.children.foldl (fun acc c => dismiss fuel acc c) h2

/-- The `due_date` property setter of `Task2`: store the value; stop if it
is falsy or fuzzy; clamp every child whose own due date is truthy,
non-fuzzy and later than the value (through the same setter, hence
recursively); then, when the parent's due date is truthy, fuzzy and
earlier than the value, assign the value to the parent through the same
setter — which cascades in turn to the parent's children and its own
parent. -/
def set_due_date : Nat → TaskHeap → Nat → Date → TaskHeap
  | 0, h, _, _ => h
  | fuel + 1, h, tid, value =>
    match aget h tid with
    | none => h
    | some t =>
      let h2 := aset h tid { t with date_due := value }
      if !value.py_bool || value.is_fuzzy then h2
      else
        let h3 := t.children.foldl (fun acc c =>
          match aget acc c with
          | some ct =>
            if ct.date_due.py_bool && !ct.date_due.is_fuzzy
                && value.lt ct.date_due then
              set_due_date fuel acc c value
            else acc
          | none => acc) h2
        match t.parent with
        | some p =>
          match aget h3 p with
          | some pt =>
            if pt.date_due.py_bool && pt.date_due.is_fuzzy
                && pt.date_due.lt value then
              set_due_date fuel h3 p value
            else h3
          | none => h3
        | none => h3

/-- Status of the task registered under `tid` (ACTIVE as a placeholder
when the id names no task). -/
def statusOf (h : TaskHeap) (tid : Nat) : Status :=
  match aget h tid with
  | some t => t.status
  | none => .ACTIVE

/-- Closed date of the task registered under `tid`. -/
def closedOf (h : TaskHeap) (tid : Nat) : Date :=
  match aget h tid with
  | some t => t.date_closed
  | none => .no_date

/-- Due date of the task registered under `tid`. -/
def dueOf (h : TaskHeap) (tid : Nat) : Date :=
  match aget h tid with
  | some t => t.date_due
  | none => .no_date

/-- Number of proper descendants of the node `rid` at every depth, through
the heap, with fuel bounding the depth. -/
def SavedSearchStore.descendantCount (s : SavedSearchStore) : Nat → String → Nat
  | 0, _ => 0
  | fuel + 1, rid => ((s.childrenOf rid).map (fun c => 1 + s.descendantCount fuel c)).sum

/-- Total number of descendants of all root entities. -/
def SavedSearchStore.rootDescendants (s : SavedSearchStore) : Nat :=
  (s.data.map (fun r => s.descendantCount (s.heap.length + 1) r)).sum

/-- Observation: `cid` is a direct child of the registered entity `pid`. -/
def SavedSearchStore.isChild (s : SavedSearchStore) (pid cid : String) : Prop :=
  pid ∈ s.lookup ∧ cid ∈ s.childrenOf pid

/-- Observation: the name and query attributes of the entity registered
under `k`. -/
def SavedSearchStore.attrsOf (s : SavedSearchStore) (k : String) :
    Option (String × String) :=
  (aget s.heap k).map (fun n => (n.name, n.query))

/-- Well-formedness of a flat store state (as produced by the store
operations while every entity stays a root or a direct child of a root):
identifiers are non-empty, registered once, resolved by the heap to an
entity carrying that identifier; roots are registered; children of roots
are registered non-roots, childless, not duplicated and not shared; the
lookup holds nothing outside the forest. -/
structure FlatWF (s : SavedSearchStore) : Prop where
  lookup_nodup : s.lookup.Nodup
  data_nodup : s.data.Nodup
  data_sub : ∀ k ∈ s.data, k ∈ s.lookup
  heap_id : ∀ k ∈ s.lookup, (aget s.heap k).map SavedSearch.id = some k
  ids_truthy : ∀ k ∈ s.lookup, truthyOpt (some k) = true
  child_in_lookup : ∀ r ∈ s.data, ∀ c ∈ s.childrenOf r, c ∈ s.lookup
  child_not_root : ∀ r ∈ s.data, ∀ c ∈ s.childrenOf r, c ∉ s.data
  flat : ∀ r ∈ s.data, ∀ c ∈ s.childrenOf r, s.childrenOf c = []
  children_nodup : ∀ r ∈ s.data, (s.childrenOf r).Nodup
  children_disjoint : ∀ r1 ∈ s.data, ∀ r2 ∈ s.data, r1 ≠ r2 →
    ∀ c ∈ s.childrenOf r1, c ∉ s.childrenOf r2
  lookup_cover : ∀ k ∈ s.lookup, k ∈ s.data ∨ ∃ r ∈ s.data, k ∈ s.childrenOf r

/-- The element `to_xml` emits for the registered entity `k` (the missing
branch is never taken on well-formed states). -/
def SavedSearchStore.elemOf (s : SavedSearchStore) (k : String) : SSElem :=
  match aget s.heap k with
  | some n => ⟨n.id, n.name, n.query, aget s.parentMap n.id⟩
  | none => ⟨k, "", "", none⟩

/-- Identifiers that the second `from_xml` pass hangs under the parent
`k`, in pass order. -/
def childAdds (es : List SSElem) (k : String) : List String :=
  (es.filter (fun e => e.parent == some k)).map SSElem.id

/-- A three-level chain a → b → c assembled through `add`. -/
def chainBuild : Except PyErr SavedSearchStore :=
  (SavedSearchStore.empty.add ⟨"a", "A", "qa", none, []⟩ none).bind (fun s1 =>
  (s1.add ⟨"b", "B", "qb", none, []⟩ (some "a")).bind (fun s2 =>
  s2.add ⟨"c", "C", "qc", none, []⟩ (some "b")))

/-- A store holding the single root entity a. -/
def oneRoot : SavedSearchStore :=
  ⟨[("a", ⟨"a", "A", "qa", none, []⟩)], ["a"], ["a"]⟩

/-- A depth-two chain a → b → c assembled through `new` and `parent`. -/
def depth2Build : Except PyErr SavedSearchStore :=
  (SavedSearchStore.empty.new "A" "qa" none "a").bind (fun r1 =>
  (r1.1.new "B" "qb" none "b").bind (fun r2 =>
  (r2.1.new "C" "qc" none "c").bind (fun r3 =>
    match r3.1.parent "b" "a" with
    | (.ok _, s4) =>
      match s4.parent "c" "b" with
      | (.ok _, s5) => .ok s5
      | (.error e, _) => .error e
    | (.error e, _) => .error e)))

/-- A flat store with one root and one child, for concrete instantiation
of the round-trip theorem. -/
def flatPair : SavedSearchStore :=
  ⟨[("r", ⟨"r", "R", "qr", none, ["k"]⟩), ("k", ⟨"k", "K", "qk", none, []⟩)],
   ["r", "k"], ["r"]⟩

/-- The two saved searches `TagStore.new` builds for the duplicate-name
scenario: `new('foo')` followed by `new('@foo')` with fresh uuids 1, 2. -/
def tagDupBuild : Except PyErr (TagStore × Tag2 × Tag2) :=
  (TagStore.empty.new "foo" none 1).bind (fun r1 =>
  (r1.1.new "@foo" none 2).map (fun r2 => (r2.1, r1.2, r2.2)))

/-- The explicit parameter list of `BaseStore.get` exactly as declared in
base_store.py: `def get(key: str)` — the `self` receiver parameter is
missing from the declaration. -/
def BaseStore.get_params : List String := ["key"]

/-- Number of positional arguments Python passes when a method is invoked
on an instance with `n` explicit arguments: the receiver plus `n`. -/
def boundMethodCallArgs (n : Nat) : Nat := n + 1

/-- Outcome of binding positional arguments to a signature without
defaults or varargs: a count mismatch raises TypeError before the body
runs. -/
def callOutcome (params : List String) (args : Nat) : Except PyErr Unit :=
  if params.length = args then .ok () else .error .typeError

/-- Task forest G → A → (B, S) with chosen statuses for G, A and the
sibling S; B is DONE with a stamped closed date. -/
def chainHeap (sG sA sS : Status) : TaskHeap :=
  [(1, ⟨1, "G", sG, none, [2], Date.today, .no_date⟩),
   (2, ⟨2, "A", sA, some 1, [3, 4], Date.today, .no_date⟩),
   (3, ⟨3, "B", .DONE, some 2, [], Date.today, .no_date⟩),
   (4, ⟨4, "S", sS, some 2, [], Date.today, .no_date⟩)]

/-- Task forest P → T → (C1, C2) with chosen statuses everywhere, closed
dates stamped, for the dismiss/toggle scenario. -/
def dismissHeap (sP sT sC1 sC2 : Status) : TaskHeap :=
  [(1, ⟨1, "P", sP, none, [2], Date.today, .no_date⟩),
   (2, ⟨2, "T", sT, some 1, [3, 4], Date.today, .no_date⟩),
   (3, ⟨3, "C1", sC1, some 2, [], Date.today, .no_date⟩),
   (4, ⟨4, "C2", sC2, some 2, [], Date.today, .no_date⟩)]

/-- Task chain G → P → C where both ancestors hold fuzzy due dates and the
child has none. -/
def dueChain : TaskHeap :=
  [(1, ⟨1, "G", .ACTIVE, none, [2], .no_date, .fuzzy 5⟩),
   (2, ⟨2, "P", .ACTIVE, some 1, [3], .no_date, .fuzzy 6⟩),
   (3, ⟨3, "C", .ACTIVE, some 2, [], .no_date, .no_date⟩)]

/-- Task forest G → P → (C, S), C → D: fuzzy due dates `g` on G and `p` on
P, a concrete due date `sv` on the sibling S and `dv` on C's child D. -/
def dueFamily (g p sv dv : Nat) : TaskHeap :=
  [(1, ⟨1, "G", .ACTIVE, none, [2], .no_date, .fuzzy g⟩),
   (2, ⟨2, "P", .ACTIVE, some 1, [3, 4], .no_date, .fuzzy p⟩),
   (3, ⟨3, "C", .ACTIVE, some 2, [5], .no_date, .no_date⟩),
   (4, ⟨4, "S", .ACTIVE, some 2, [], .no_date, .on sv⟩),
   (5, ⟨5, "D", .ACTIVE, some 3, [], .no_date, .on dv⟩)]

/-- Registered root identifiers, in lookup insertion order. -/
def SavedSearchStore.rootKeys (s : SavedSearchStore) : List String :=
  s.lookup.filter (fun k => decide (k ∈ s.data))

/-- Registered non-root identifiers, in lookup insertion order. -/
def SavedSearchStore.childKeys (s : SavedSearchStore) : List String :=
  s.lookup.filter (fun k => !decide (k ∈ s.data))

/-- The store state after the first `from_xml` pass over the serialized
form of a flat store: every root re-registered, no children attached
yet. -/
def midStore (s : SavedSearchStore) : SavedSearchStore :=
  ⟨(s.rootKeys.map s.elemOf).foldl (fun h e => aset h e.id (mkSearch e)) [],
   s.rootKeys, s.rootKeys⟩

/-- C1: in the chain a → b → c built through the store operations,
`remove("a")` removes the root a from the roots sequence and deletes a and
its direct child b from the lookup, but the grandchild c — a descendant of
a — is left registered in the lookup, contradicting deletion of every
descendant identifier at all depths. -/
theorem remove_leaves_grandchild_in_lookup :
    chainBuild.map (fun s => (s.lookup, s.data, s.childrenOf "a", s.childrenOf "b"))
      = .ok (["a", "b", "c"], ["a"], ["b"], ["c"])
    ∧ (chainBuild.bind (fun s => s.remove "a")).map (fun s2 => (s2.lookup, s2.data))
      = .ok (["c"], []) :=
  ⟨rfl, rfl⟩

/-- C3: on the store reached by building the chain a → b → c and removing
a, `count()` is 1 while `count(root_only=True)` plus the number of
descendants of all roots is 0, so the claimed equality fails on a
reachable state (the stale grandchild identifier c is still counted by
the lookup). -/
theorem count_equality_fails_after_remove :
    chainBuild.map (fun s => (s.count false, s.count true, s.rootDescendants))
      = .ok (3, 1, 2)
    ∧ (chainBuild.bind (fun s => s.remove "a")).map
        (fun s2 => (s2.count false, s2.count true, s2.rootDescendants))
      = .ok (1, 0, 0)
    ∧ (1 : Nat) ≠ 0 + 0 :=
  ⟨rfl, rfl, by decide⟩

/-- C4: on a fresh tag store, `new('foo')` followed by `new('@foo')`
creates two distinct Tag2 instances both named foo (the roots grow to
two), because the existing-tag probe `lookup[name]` uses a string key
while every registration is keyed by uuid — the claimed idempotency by
normalized name does not hold on the code. -/
theorem tagstore_new_creates_duplicate :
    tagDupBuild.map (fun r =>
        (r.1.data.length, r.2.1.name, r.2.2.name, r.2.1.id == r.2.2.id))
      = .ok (2, "foo", "foo", false) :=
  rfl

/-- C5 counterexample: on the store holding the single root a,
`parent("a", "zzz")` fails with KeyError because the parent identifier is
absent, yet the store is modified by the failing call: a has already been
removed from the roots sequence. -/
theorem parent_missing_parent_mutates_store :
    oneRoot.parent "a" "zzz"
        = (.error .keyError, { oneRoot with data := [] })
    ∧ oneRoot.data = ["a"] :=
  ⟨rfl, rfl⟩

/-- C5 amended: `parent(item_id, parent_id)` fails with KeyError when
`item_id` is absent from the lookup, leaving the store unmodified.  With
`item_id` registered, the call runs `data.remove(item)` before
`parent_id` is ever examined: if the item is not a root it fails with
ValueError (store unmodified) even when `parent_id` is also absent, and
if the item is a root while `parent_id` is absent, the KeyError is raised
only after the item has already been removed from the roots sequence
(the lookup and the heap stay unchanged). -/
theorem parent_error_behavior (s : SavedSearchStore) (item_id parent_id : String) :
    (item_id ∉ s.lookup →
      s.parent item_id parent_id = (.error .keyError, s))
    ∧ (item_id ∈ s.lookup → item_id ∉ s.data →
      s.parent item_id parent_id = (.error .valueError, s))
    ∧ (item_id ∈ s.lookup → item_id ∈ s.data → parent_id ∉ s.lookup →
      s.parent item_id parent_id
        = (.error .keyError, { s with data := s.data.erase item_id })) := by
  refine ⟨?_, ?_, ?_⟩
  · intro h1
    simp [SavedSearchStore.parent, h1]
  · intro h1 h2
    simp [SavedSearchStore.parent, h1, h2]
  · intro h1 h2 h3
    simp [SavedSearchStore.parent, h1, h2, h3]

/-- Witness for the amended C5 theorem at three concrete inputs: a
missing item on the empty store, a registered non-root item with a
missing parent on the root-plus-child store, and a missing parent for a
root item on the one-root store. -/
theorem parent_error_behavior_witness :
    SavedSearchStore.empty.parent "x" "y" = (.error .keyError, SavedSearchStore.empty)
    ∧ flatPair.parent "k" "zzz" = (.error .valueError, flatPair)
    ∧ oneRoot.parent "a" "zzz"
      = (.error .keyError, { oneRoot with data := oneRoot.data.erase "a" }) :=
  ⟨(parent_error_behavior SavedSearchStore.empty "x" "y").1 (by decide),
   (parent_error_behavior flatPair "k" "zzz").2.1 (by decide) (by decide),
   (parent_error_behavior oneRoot "a" "zzz").2.2 (by decide) (by decide) (by decide)⟩

/-- C6: `BaseStore.get` is declared without the `self` receiver
parameter, so the bound call `store.get(id)` passes two positional
arguments to a one-parameter function and raises TypeError before the
lookup ever runs — the inherited `SavedSearchStore` get can neither
return the entity nor raise the NotFound KeyError. -/
theorem get_missing_self_raises_typeerror :
    callOutcome BaseStore.get_params (boundMethodCallArgs 1) = .error .typeError
    ∧ BaseStore.get_params.length = 1 :=
  ⟨rfl, rfl⟩

/-- C7 counterexample: in the all-DONE chain G → A → B, toggling B back to
ACTIVE re-activates not only the parent A but also the grandparent G —
the upward re-activation recurses beyond the parent, since
`propagate=False` only suppresses the downward loop. -/
theorem toggle_status_recurses_beyond_parent :
    statusOf (chainHeap .DONE .DONE .DONE) 1 = .DONE
    ∧ statusOf (toggle_status 10 (chainHeap .DONE .DONE .DONE) 3 true) 1 = .ACTIVE
    ∧ statusOf (toggle_status 10 (chainHeap .DONE .DONE .DONE) 3 true) 2 = .ACTIVE
    ∧ statusOf (toggle_status 10 (chainHeap .DONE .DONE .DONE) 3 true) 4 = .DONE := by
  decide

/-- C7 amended: toggling the DONE child B of A back to ACTIVE clears B's
closed date, re-activates A whatever its prior non-ACTIVE status (leaving
it ACTIVE when it already was), changes no sibling of B, and the upward
re-activation continues past A: the grandparent G is re-activated exactly
when both A and G were non-ACTIVE, and is untouched otherwise. -/
theorem toggle_status_reactivates_ancestor_chain (sG sA sS : Status) :
    statusOf (toggle_status 10 (chainHeap sG sA sS) 3 true) 3 = .ACTIVE
    ∧ closedOf (toggle_status 10 (chainHeap sG sA sS) 3 true) 3 = .no_date
    ∧ statusOf (toggle_status 10 (chainHeap sG sA sS) 3 true) 2 = .ACTIVE
    ∧ statusOf (toggle_status 10 (chainHeap sG sA sS) 3 true) 4 = sS
    ∧ closedOf (toggle_status 10 (chainHeap sG sA sS) 3 true) 4 = Date.today
    ∧ statusOf (toggle_status 10 (chainHeap sG sA sS) 3 true) 1
      = (if sA ≠ .ACTIVE ∧ sG ≠ .ACTIVE then .ACTIVE else sG) := by
  cases sG <;> cases sA <;> cases sS <;> decide

/-- C8: the first `generate_color()` call on a fresh tag store returns
None and records None in `used_colors` — the `while color in used_colors`
guard is false for the initial `color = None`, so the body never draws a
channel triple, even when the random stream could supply one (and even
when it supplies none at all). -/
theorem generate_color_first_call_returns_none :
    TagStore.empty.generate_color [(0, 0, 0)]
      = some (none, { TagStore.empty with used_colors := [none] })
    ∧ TagStore.empty.generate_color []
      = some (none, { TagStore.empty with used_colors := [none] }) :=
  ⟨rfl, rfl⟩

/-- C9 counterexample: in the chain G → P → C with fuzzy due dates 5 on G
and 6 on P, setting the concrete due date 10 on C pulls P forward to 10
as claimed, but also pulls the grandparent G to 10 — the upward pull is
not one hop, because it is applied through the full setter. -/
theorem due_date_pull_cascades_beyond_one_hop :
    dueOf dueChain 1 = .fuzzy 5
    ∧ dueOf (set_due_date 10 dueChain 3 (.on 10)) 2 = .on 10
    ∧ dueOf (set_due_date 10 dueChain 3 (.on 10)) 1 = .on 10 := by
  decide

/-- C9 amended: setting the concrete due date `v` on C (child of P, P
fuzzy at `p < v`, grandparent G fuzzy at `g < p`, sibling S concrete later
than `v`, child D concrete later than `v`) stores `v` on C, clamps the
descendant D down to `v`, pulls P forward to `v`, and — because the pull
runs the full setter on P — also clamps C's sibling S to `v` and pulls
the fuzzy grandparent G to `v`: the upward pull cascades along the chain
of earlier fuzzy ancestors instead of stopping after one hop. -/
theorem due_date_propagation (g p v : Nat) (h1 : g < p) (h2 : p < v) :
    dueOf (set_due_date 5 (dueFamily g p (v + 1) (v + 2)) 3 (.on v)) 3 = .on v
    ∧ dueOf (set_due_date 5 (dueFamily g p (v + 1) (v + 2)) 3 (.on v)) 5 = .on v
    ∧ dueOf (set_due_date 5 (dueFamily g p (v + 1) (v + 2)) 3 (.on v)) 2 = .on v
    ∧ dueOf (set_due_date 5 (dueFamily g p (v + 1) (v + 2)) 3 (.on v)) 4 = .on v
    ∧ dueOf (set_due_date 5 (dueFamily g p (v + 1) (v + 2)) 3 (.on v)) 1 = .on v := by
  have e1 : v < v + 2 := by omega
  have e2 : v < v + 1 := by omega
  have e3 : g < v := by omega
  have e4 : ¬ v < v := by omega
  simp [set_due_date, dueFamily, aget, aset, dueOf, Date.lt, Date.day, Date.py_bool,
        Date.is_fuzzy, e1, e2, e3, e4, h2]

/-- Witness for the amended C9 theorem at the concrete dates g = 1,
p = 2, v = 3. -/
theorem due_date_propagation_witness :
    dueOf (set_due_date 5 (dueFamily 1 2 (3 + 1) (3 + 2)) 3 (.on 3)) 3 = .on 3
    ∧ dueOf (set_due_date 5 (dueFamily 1 2 (3 + 1) (3 + 2)) 3 (.on 3)) 5 = .on 3
    ∧ dueOf (set_due_date 5 (dueFamily 1 2 (3 + 1) (3 + 2)) 3 (.on 3)) 2 = .on 3
    ∧ dueOf (set_due_date 5 (dueFamily 1 2 (3 + 1) (3 + 2)) 3 (.on 3)) 4 = .on 3
    ∧ dueOf (set_due_date 5 (dueFamily 1 2 (3 + 1) (3 + 2)) 3 (.on 3)) 1 = .on 3 :=
  due_date_propagation 1 2 3 (by decide) (by decide)

/-- C10: for every status assignment to the parent, the task T and its
two children, dismissing T leaves it DISMISSED, and a subsequent
`toggle_status` on T transitions it to ACTIVE with its closed date
cleared — the non-ACTIVE statuses are treated uniformly, so DISMISSED is
reversible through toggle_status although dismiss itself never leaves
DISMISSED. -/
theorem toggle_status_reverses_dismiss (sP sT sC1 sC2 : Status) :
    statusOf (dismiss 10 (dismissHeap sP sT sC1 sC2) 2) 2 = .DISMISSED
    ∧ statusOf (toggle_status 10 (dismiss 10 (dismissHeap sP sT sC1 sC2) 2) 2 true) 2
      = .ACTIVE
    ∧ closedOf (toggle_status 10 (dismiss 10 (dismissHeap sP sT sC1 sC2) 2) 2 true) 2
      = .no_date := by
  cases sP <;> cases sT <;> cases sC1 <;> cases sC2 <;> decide

/-- C2 counterexample: the depth-two chain a → b → c is reachable through
`new` and `parent`, but after `to_xml` and `from_xml` into a fresh store
the grandchild c has become a root and b has lost its child — the
one-level parent map of `to_xml` drops parent links below the first
level, so the round-trip does not preserve the root/child structure. -/
theorem roundtrip_depth2_counterexample :
    depth2Build.map (fun s => (s.data.contains "c", s.childrenOf "b"))
      = .ok (false, ["c"])
    ∧ (depth2Build.bind (fun s => SavedSearchStore.empty.from_xml s.to_xml)).map
        (fun s2 => (s2.data.contains "c", s2.childrenOf "b"))
      = .ok (true, []) :=
  ⟨rfl, rfl⟩

theorem aget_aset_self {κ α : Type} [DecidableEq κ] (l : List (κ × α)) (k : κ) (v : α) :
    aget (aset l k v) k = some v := by
  induction l with
  | nil => simp [aget, aset]
  | cons hd t ih =>
    obtain ⟨k2, v2⟩ := hd
    by_cases h : k2 = k
    · subst h; simp [aget, aset]
    · simp [aget, aset, h, ih]

theorem aget_aset_ne {κ α : Type} [DecidableEq κ] (l : List (κ × α)) (k k2 : κ) (v : α)
    (h : ¬ k = k2) : aget (aset l k v) k2 = aget l k2 := by
  induction l with
  | nil => simp [aget, aset, h]
  | cons hd t ih =>
    obtain ⟨k3, v3⟩ := hd
    by_cases h3 : k3 = k
    · subst h3; simp [aget, aset, h]
    · simp [aget, aset, h3, ih]

theorem except_bind_ok {ε α β : Type} (a : α) (f : α → Except ε β) :
    (Except.ok a >>= f : Except ε β) = f a := rfl

theorem find?_unique {α : Type} (l : List α) (p : α → Bool) (a : α)
    (ha : a ∈ l) (hp : p a = true) (huniq : ∀ b ∈ l, p b = true → b = a) :
    l.find? p = some a := by
  induction l with
  | nil => cases ha
  | cons hd t ih =>
    by_cases h : p hd = true
    · have he : hd = a := huniq hd (List.mem_cons_self hd t) h
      subst he
      simp [List.find?_cons, h]
    · have hne : p hd = false := by
        cases hpb : p hd
        · rfl
        · exact absurd hpb h
      rw [List.find?_cons, hne]
      apply ih
      · rcases List.mem_cons.mp ha with h1 | h1
        · subst h1; exact absurd hp h
        · exact h1
      · intro b hb hpb
        exact huniq b (List.mem_cons_of_mem _ hb) hpb

theorem filterMap_eq_map_of_some {α β : Type} (l : List α) (f : α → Option β) (g : α → β)
    (h : ∀ a ∈ l, f a = some (g a)) : l.filterMap f = l.map g := by
  induction l with
  | nil => rfl
  | cons hd t ih =>
    rw [List.filterMap_cons, h hd (List.mem_cons_self hd t), List.map_cons,
        ih (fun a ha => h a (List.mem_cons_of_mem _ ha))]

theorem aget_children_fold (cs : List String) (pm : List (String × String)) (r c : String) :
    aget (cs.foldl (fun pm2 cid => aset pm2 cid r) pm) c
      = if c ∈ cs then some r else aget pm c := by
  induction cs generalizing pm with
  | nil => simp
  | cons cid t ih =>
    rw [List.foldl_cons, ih]
    by_cases h : c ∈ t
    · simp [h]
    · by_cases h2 : cid = c
      · subst h2
        simp [h, aget_aset_self]
      · have : ¬ c = cid := fun hcc => h2 hcc.symm
        simp [h, this, aget_aset_ne _ _ _ _ h2]

theorem parentMap_fold_not_mem (s : SavedSearchStore) (rs : List String)
    (pm : List (String × String)) (c : String)
    (h : ∀ r ∈ rs, c ∉ s.childrenOf r) :
    aget (rs.foldl (fun pm2 rid =>
      match aget s.heap rid with
      | some r => r.children.foldl (fun pm3 cid => aset pm3 cid rid) pm2
      | none => pm2) pm) c = aget pm c := by
  induction rs generalizing pm with
  | nil => rfl
  | cons rid t ih =>
    rw [List.foldl_cons]
    have ht : ∀ r ∈ t, c ∉ s.childrenOf r :=
      fun r hr => h r (List.mem_cons_of_mem _ hr)
    cases hr : aget s.heap rid with
    | none =>
      rw [ih _ ht]
    | some n =>
      rw [ih _ ht]
      show aget (n.children.foldl (fun pm3 cid => aset pm3 cid rid) pm) c = aget pm c
      rw [aget_children_fold]
      have : c ∉ n.children := by
        have := h rid (List.mem_cons_self rid t)
        simpa [SavedSearchStore.childrenOf, hr] using this
      simp [this]

theorem parentMap_fold_mem (s : SavedSearchStore) (rs : List String)
    (pm : List (String × String)) (r c : String)
    (hnodup : rs.Nodup) (hr : r ∈ rs) (hc : c ∈ s.childrenOf r)
    (huniq : ∀ r2 ∈ rs, c ∈ s.childrenOf r2 → r2 = r) :
    aget (rs.foldl (fun pm2 rid =>
      match aget s.heap rid with
      | some n => n.children.foldl (fun pm3 cid => aset pm3 cid rid) pm2
      | none => pm2) pm) c = some r := by
  induction rs generalizing pm with
  | nil => cases hr
  | cons rid t ih =>
    rw [List.foldl_cons]
    by_cases hm : c ∈ s.childrenOf rid
    · have he : rid = r := huniq rid (List.mem_cons_self rid t) hm
      subst he
      cases hh : aget s.heap rid with
      | none =>
        exact absurd hm (by simp [SavedSearchStore.childrenOf, hh])
      | some n =>
        have hcn : c ∈ n.children := by
          simpa [SavedSearchStore.childrenOf, hh] using hm
        have ht : ∀ r2 ∈ t, c ∉ s.childrenOf r2 := by
          intro r2 h2 hc2
          have : r2 = rid := huniq r2 (List.mem_cons_of_mem _ h2) hc2
          subst this
          exact (List.nodup_cons.mp hnodup).1 h2
        rw [parentMap_fold_not_mem s t _ c ht]
        show aget (n.children.foldl (fun pm3 cid => aset pm3 cid rid) pm) c = some rid
        rw [aget_children_fold]
        simp [hcn]
    · have hrt : r ∈ t := by
        rcases List.mem_cons.mp hr with h1 | h1
        · subst h1; exact absurd hc hm
        · exact h1
      have hn := (List.nodup_cons.mp hnodup).2
      have hu : ∀ r2 ∈ t, c ∈ s.childrenOf r2 → r2 = r :=
        fun r2 h2 hc2 => huniq r2 (List.mem_cons_of_mem _ h2) hc2
      cases hh : aget s.heap rid with
      | none => exact ih _ hn hrt hu
      | some n => exact ih _ hn hrt hu

theorem parentMap_child (s : SavedSearchStore) (wf : FlatWF s) (r c : String)
    (hr : r ∈ s.data) (hc : c ∈ s.childrenOf r) :
    aget s.parentMap c = some r := by
  rw [SavedSearchStore.parentMap]
  apply parentMap_fold_mem s s.data [] r c wf.data_nodup hr hc
  intro r2 h2 hc2
  by_contra hne
  exact wf.children_disjoint r2 h2 r hr hne c hc2 hc

theorem parentMap_root (s : SavedSearchStore) (wf : FlatWF s) (k : String)
    (hk : k ∈ s.data) : aget s.parentMap k = none := by
  rw [SavedSearchStore.parentMap]
  rw [parentMap_fold_not_mem s s.data [] k
    (fun r hr hmem => wf.child_not_root r hr k hmem hk)]
  rfl

theorem to_xml_eq_map (s : SavedSearchStore) (wf : FlatWF s) :
    s.to_xml = s.lookup.map s.elemOf := by
  unfold SavedSearchStore.to_xml
  apply filterMap_eq_map_of_some
  intro k hk
  have hid := wf.heap_id k hk
  cases hn : aget s.heap k with
  | none => rw [hn] at hid; cases hid
  | some n =>
    rw [hn] at hid
    have hnid : n.id = k := by simpa using hid
    simp [SavedSearchStore.elemOf, hn]

theorem elemOf_id (s : SavedSearchStore) (wf : FlatWF s) (k : String)
    (hk : k ∈ s.lookup) : (s.elemOf k).id = k := by
  have hid := wf.heap_id k hk
  cases hn : aget s.heap k with
  | none => rw [hn] at hid; cases hid
  | some n =>
    rw [hn] at hid
    have hnid : n.id = k := by simpa using hid
    simp [SavedSearchStore.elemOf, hn, hnid]

theorem elemOf_parent_root (s : SavedSearchStore) (wf : FlatWF s) (k : String)
    (hk : k ∈ s.data) : (s.elemOf k).parent = none := by
  have hkl := wf.data_sub k hk
  have hid := wf.heap_id k hkl
  cases hn : aget s.heap k with
  | none => rw [hn] at hid; cases hid
  | some n =>
    rw [hn] at hid
    have hnid : n.id = k := by simpa using hid
    simp [SavedSearchStore.elemOf, hn, hnid, parentMap_root s wf k hk]

theorem elemOf_parent_child (s : SavedSearchStore) (wf : FlatWF s) (r k : String)
    (hr : r ∈ s.data) (hk : k ∈ s.childrenOf r) : (s.elemOf k).parent = some r := by
  have hkl := wf.child_in_lookup r hr k hk
  have hid := wf.heap_id k hkl
  cases hn : aget s.heap k with
  | none => rw [hn] at hid; cases hid
  | some n =>
    rw [hn] at hid
    have hnid : n.id = k := by simpa using hid
    simp [SavedSearchStore.elemOf, hn, hnid, parentMap_child s wf r k hr hk]

theorem elemOf_attrs (s : SavedSearchStore) (wf : FlatWF s) (k : String)
    (hk : k ∈ s.lookup) :
    some ((mkSearch (s.elemOf k)).name, (mkSearch (s.elemOf k)).query) = s.attrsOf k := by
  have hid := wf.heap_id k hk
  cases hn : aget s.heap k with
  | none => rw [hn] at hid; cases hid
  | some n =>
    simp [SavedSearchStore.elemOf, SavedSearchStore.attrsOf, hn, mkSearch]

theorem from_xml_pass1 (es : List SSElem) (s0 : SavedSearchStore)
    (hnodup : (s0.lookup ++ es.map SSElem.id).Nodup) :
    es.foldlM (fun st e => st.add (mkSearch e) none) s0
      = Except.ok (SavedSearchStore.mk
          (es.foldl (fun h e => aset h e.id (mkSearch e)) s0.heap)
          (s0.lookup ++ es.map SSElem.id)
          (s0.data ++ es.map SSElem.id)) := by
  induction es generalizing s0 with
  | nil =>
    simp only [List.foldlM_nil, List.map_nil, List.append_nil, List.foldl_nil]
    rfl
  | cons e t ih =>
    have hsplit := List.nodup_append.mp hnodup
    have hid : (mkSearch e).id ∉ s0.lookup := by
      intro hmem
      exact hsplit.2.2 hmem (by simp [mkSearch])
    have hadd : s0.add (mkSearch e) none
        = Except.ok { s0 with
            heap := aset s0.heap (mkSearch e).id (mkSearch e),
            data := s0.data ++ [(mkSearch e).id],
            lookup := s0.lookup ++ [(mkSearch e).id] } := by
      simp [SavedSearchStore.add, hid, truthyOpt]
    rw [List.foldlM_cons, hadd, except_bind_ok]
    rw [ih _ (by simpa [List.append_assoc, mkSearch] using hnodup)]
    simp [mkSearch, List.append_assoc]

theorem pass1_heap (es : List SSElem) (h0 : List (String × SavedSearch)) (k : String)
    (hnodup : (es.map SSElem.id).Nodup) :
    aget (es.foldl (fun h e => aset h e.id (mkSearch e)) h0) k
      = match es.find? (fun e => e.id == k) with
        | some e => some (mkSearch e)
        | none => aget h0 k := by
  induction es generalizing h0 with
  | nil => rfl
  | cons e t ih =>
    have hnd : (∀ x ∈ t, ¬ x.id = e.id) ∧ (t.map SSElem.id).Nodup := by
      simpa using hnodup
    rw [List.foldl_cons, ih _ hnd.2]
    by_cases hk : e.id = k
    · subst hk
      have hfind : t.find? (fun e2 => e2.id == e.id) = none := by
        rw [List.find?_eq_none]
        intro e2 he2
        simp only [beq_iff_eq]
        exact hnd.1 e2 he2
      rw [hfind, List.find?_cons]
      simp [aget_aset_self]
    · rw [List.find?_cons]
      have : (e.id == k) = false := by simp [hk]
      rw [this]
      cases hf : t.find? (fun e2 => e2.id == k) with
      | some e2 => rfl
      | none => simp [aget_aset_ne _ _ _ _ hk]

theorem childAdds_nil_of_no_parent (es : List SSElem) (k : String)
    (h : ∀ e ∈ es, (e.parent == some k) = false) : childAdds es k = [] := by
  unfold childAdds
  rw [List.filter_eq_nil_iff.mpr (fun e he => by simp [h e he])]
  rfl

theorem childAdds_cons_pos (e : SSElem) (es : List SSElem) (k : String)
    (h : (e.parent == some k) = true) :
    childAdds (e :: es) k = e.id :: childAdds es k := by
  unfold childAdds
  simp [List.filter_cons, h]

theorem childAdds_cons_neg (e : SSElem) (es : List SSElem) (k : String)
    (h : (e.parent == some k) = false) :
    childAdds (e :: es) k = childAdds es k := by
  unfold childAdds
  simp [List.filter_cons, h]

theorem mem_childAdds (es : List SSElem) (k c : String) :
    c ∈ childAdds es k ↔ ∃ e ∈ es, e.parent = some k ∧ e.id = c := by
  simp only [childAdds, List.mem_map, List.mem_filter, beq_iff_eq]
  tauto

theorem heapAppendChild_of_none (h : List (String × SavedSearch)) (pid cid : String)
    (hn : aget h pid = none) : heapAppendChild h pid cid = h := by
  unfold heapAppendChild
  rw [hn]

theorem heapAppendChild_of_some (h : List (String × SavedSearch)) (pid cid : String)
    (n : SavedSearch) (hn : aget h pid = some n) :
    heapAppendChild h pid cid = aset h pid { n with children := n.children ++ [cid] } := by
  unfold heapAppendChild
  rw [hn]

theorem from_xml_pass2 (es : List SSElem) (s1 : SavedSearchStore)
    (hnodup : (es.map SSElem.id).Nodup)
    (hfresh : ∀ e ∈ es, e.id ∉ s1.lookup)
    (hparent : ∀ e ∈ es, ∃ r, e.parent = some r ∧ truthyOpt (some r) = true
      ∧ r ∈ s1.lookup ∧ ∀ e2 ∈ es, ¬ e2.id = r) :
    ∃ s2, es.foldlM (fun st e => st.add (mkSearch e) e.parent) s1 = Except.ok s2
      ∧ s2.data = s1.data
      ∧ s2.lookup = s1.lookup ++ es.map SSElem.id
      ∧ ∀ k, aget s2.heap k
          = match es.find? (fun e => e.id == k) with
            | some e => some (mkSearch e)
            | none => (aget s1.heap k).map
                (fun n => { n with children := n.children ++ childAdds es k }) := by
  induction es generalizing s1 with
  | nil =>
    refine ⟨s1, rfl, rfl, by simp, ?_⟩
    intro k
    show aget s1.heap k
      = (aget s1.heap k).map (fun n => { n with children := n.children ++ childAdds [] k })
    cases aget s1.heap k with
    | none => rfl
    | some n =>
      obtain ⟨i, na, q, ic, ch⟩ := n
      simp [childAdds]
  | cons e t ih =>
    obtain ⟨r, hpe, htr, hrl, hrn⟩ := hparent e (List.mem_cons_self e t)
    have hnd : (∀ x ∈ t, ¬ x.id = e.id) ∧ (t.map SSElem.id).Nodup := by
      simpa using hnodup
    have hef : e.id ∉ s1.lookup := hfresh e (List.mem_cons_self e t)
    have hadd : s1.add (mkSearch e) e.parent = Except.ok
        { s1 with heap := aset (heapAppendChild s1.heap r e.id) e.id (mkSearch e),
                  lookup := s1.lookup ++ [e.id] } := by
      rw [hpe]
      simp [SavedSearchStore.add, hef, htr, hrl, mkSearch]
    rw [List.foldlM_cons, hadd, except_bind_ok]
    have hfresh2 : ∀ e2 ∈ t, e2.id ∉ s1.lookup ++ [e.id] := by
      intro e2 he2 hmem
      rcases List.mem_append.mp hmem with h1 | h1
      · exact hfresh e2 (List.mem_cons_of_mem _ he2) h1
      · exact hnd.1 e2 he2 (by simpa using h1)
    have hparent2 : ∀ e2 ∈ t, ∃ r2, e2.parent = some r2 ∧ truthyOpt (some r2) = true
        ∧ r2 ∈ s1.lookup ++ [e.id] ∧ ∀ e3 ∈ t, ¬ e3.id = r2 := by
      intro e2 he2
      obtain ⟨r2, hp2, ht2, hl2, hn2⟩ := hparent e2 (List.mem_cons_of_mem _ he2)
      exact ⟨r2, hp2, ht2, List.mem_append_left _ hl2,
        fun e3 he3 => hn2 e3 (List.mem_cons_of_mem _ he3)⟩
    obtain ⟨s2, heq, hdata, hlookup, hheap⟩ := ih
      { s1 with heap := aset (heapAppendChild s1.heap r e.id) e.id (mkSearch e),
                lookup := s1.lookup ++ [e.id] }
      hnd.2 hfresh2 hparent2
    refine ⟨s2, heq, hdata, ?_, ?_⟩
    · rw [hlookup]
      simp
    · intro k
      rw [hheap k]
      by_cases hk : e.id = k
      · subst hk
        have hnone : t.find? (fun e2 => e2.id == e.id) = none := by
          rw [List.find?_eq_none]
          intro e2 he2
          simp only [beq_iff_eq]
          exact hnd.1 e2 he2
        have hca : childAdds t e.id = [] := by
          apply childAdds_nil_of_no_parent
          intro e2 he2
          obtain ⟨r2, hp2, _, _, hn2⟩ := hparent e2 (List.mem_cons_of_mem _ he2)
          have : ¬ e.id = r2 := hn2 e (List.mem_cons_self e t)
          rw [hp2]
          simp only [beq_eq_false_iff_ne, ne_eq, Option.some.injEq]
          intro hcc
          exact this hcc.symm
        rw [hnone, List.find?_cons]
        have hself : (e.id == e.id) = true := by simp
        rw [hself]
        show (aget (aset (heapAppendChild s1.heap r e.id) e.id (mkSearch e)) e.id).map _
          = some (mkSearch e)
        rw [aget_aset_self]
        simp [hca, mkSearch]
      · rw [List.find?_cons]
        have hbe : (e.id == k) = false := by simp [hk]
        rw [hbe]
        cases hf : t.find? (fun e2 => e2.id == k) with
        | some e2 => rfl
        | none =>
          show (aget (aset (heapAppendChild s1.heap r e.id) e.id (mkSearch e)) k).map _
            = (aget s1.heap k).map _
          rw [aget_aset_ne _ _ _ _ hk]
          by_cases hkr : k = r
          · subst hkr
            rcases Option.eq_none_or_eq_some (aget s1.heap k) with hgr | ⟨n, hgr⟩
            · rw [heapAppendChild_of_none _ _ _ hgr, hgr]
              rfl
            · rw [heapAppendChild_of_some _ _ _ _ hgr, aget_aset_self, hgr]
              have hcac : childAdds (e :: t) k = e.id :: childAdds t k := by
                apply childAdds_cons_pos
                rw [hpe]
                simp
              obtain ⟨i, na, q, ic, ch⟩ := n
              simp [hcac]
          · have hrk : ¬ r = k := fun hcc => hkr hcc.symm
            have hagk : aget (heapAppendChild s1.heap r e.id) k = aget s1.heap k := by
              rcases Option.eq_none_or_eq_some (aget s1.heap r) with hgr | ⟨n, hgr⟩
              · rw [heapAppendChild_of_none _ _ _ hgr]
              · rw [heapAppendChild_of_some _ _ _ _ hgr, aget_aset_ne _ _ _ _ hrk]
            rw [hagk]
            have hcac : childAdds (e :: t) k = childAdds t k := by
              apply childAdds_cons_neg
              rw [hpe]
              simp only [beq_eq_false_iff_ne, ne_eq, Option.some.injEq]
              intro hcc
              exact hkr hcc.symm
            rw [hcac]

theorem map_congr_mem {α β : Type} (l : List α) (f g : α → β)
    (h : ∀ a ∈ l, f a = g a) : l.map f = l.map g := by
  induction l with
  | nil => rfl
  | cons a t ih =>
    rw [List.map_cons, List.map_cons, h a (List.mem_cons_self a t),
        ih (fun x hx => h x (List.mem_cons_of_mem _ hx))]

theorem mem_rootKeys (s : SavedSearchStore) (wf : FlatWF s) (k : String) :
    k ∈ s.rootKeys ↔ k ∈ s.data := by
  unfold SavedSearchStore.rootKeys
  simp only [List.mem_filter, decide_eq_true_eq]
  exact ⟨fun h => h.2, fun h => ⟨wf.data_sub k h, h⟩⟩

theorem mem_childKeys (s : SavedSearchStore) (k : String) :
    k ∈ s.childKeys ↔ k ∈ s.lookup ∧ k ∉ s.data := by
  unfold SavedSearchStore.childKeys
  simp [List.mem_filter]

theorem rootKeys_nodup (s : SavedSearchStore) (wf : FlatWF s) : s.rootKeys.Nodup :=
  wf.lookup_nodup.filter _

theorem childKeys_nodup (s : SavedSearchStore) (wf : FlatWF s) : s.childKeys.Nodup :=
  wf.lookup_nodup.filter _

theorem elems_map_id (s : SavedSearchStore) (wf : FlatWF s) (L : List String)
    (hL : ∀ x ∈ L, x ∈ s.lookup) :
    (L.map s.elemOf).map SSElem.id = L := by
  rw [List.map_map]
  have : L.map (fun k => (s.elemOf k).id) = L.map (fun k => k) :=
    map_congr_mem L _ _ (fun k hk => elemOf_id s wf k (hL k hk))
  simpa using this

theorem find?_elems_self (s : SavedSearchStore) (wf : FlatWF s) (L : List String)
    (hL : ∀ x ∈ L, x ∈ s.lookup) (k : String) (hk : k ∈ L) :
    (L.map s.elemOf).find? (fun e => e.id == k) = some (s.elemOf k) := by
  apply find?_unique
  · exact List.mem_map_of_mem s.elemOf hk
  · simp [elemOf_id s wf k (hL k hk)]
  · intro b hb hpb
    obtain ⟨x, hx, hbx⟩ := List.mem_map.mp hb
    subst hbx
    have : x = k := by
      have := elemOf_id s wf x (hL x hx)
      simpa [this] using hpb
    rw [this]

theorem find?_elems_none (s : SavedSearchStore) (wf : FlatWF s) (L : List String)
    (hL : ∀ x ∈ L, x ∈ s.lookup) (k : String) (hk : k ∉ L) :
    (L.map s.elemOf).find? (fun e => e.id == k) = none := by
  rw [List.find?_eq_none]
  intro b hb
  obtain ⟨x, hx, hbx⟩ := List.mem_map.mp hb
  subst hbx
  have := elemOf_id s wf x (hL x hx)
  simp only [this, beq_iff_eq]
  intro hcc
  exact hk (hcc ▸ hx)

theorem childrenOf_of_aget (s : SavedSearchStore) (pid : String) (n : SavedSearch)
    (hn : aget s.heap pid = some n) : s.childrenOf pid = n.children := by
  unfold SavedSearchStore.childrenOf
  rw [hn]

theorem to_xml_filter_roots (s : SavedSearchStore) (wf : FlatWF s) :
    (s.lookup.map s.elemOf).filter (fun e => !truthyOpt e.parent)
      = s.rootKeys.map s.elemOf := by
  rw [List.filter_map]
  unfold SavedSearchStore.rootKeys
  congr 1
  apply List.filter_congr
  intro k hk
  simp only [Function.comp_apply]
  by_cases hd : k ∈ s.data
  · rw [elemOf_parent_root s wf k hd]
    simp [truthyOpt, hd]
  · rcases wf.lookup_cover k hk with h1 | ⟨r, hr, hcr⟩
    · exact absurd h1 hd
    · rw [elemOf_parent_child s wf r k hr hcr]
      have ht := wf.ids_truthy r (wf.data_sub r hr)
      simp [ht, hd]

theorem to_xml_filter_children (s : SavedSearchStore) (wf : FlatWF s) :
    (s.lookup.map s.elemOf).filter (fun e => truthyOpt e.parent)
      = s.childKeys.map s.elemOf := by
  rw [List.filter_map]
  unfold SavedSearchStore.childKeys
  congr 1
  apply List.filter_congr
  intro k hk
  simp only [Function.comp_apply]
  by_cases hd : k ∈ s.data
  · rw [elemOf_parent_root s wf k hd]
    simp [truthyOpt, hd]
  · rcases wf.lookup_cover k hk with h1 | ⟨r, hr, hcr⟩
    · exact absurd h1 hd
    · rw [elemOf_parent_child s wf r k hr hcr]
      have ht := wf.ids_truthy r (wf.data_sub r hr)
      simp [ht, hd]

theorem pass1_result (s : SavedSearchStore) (wf : FlatWF s) :
    (s.rootKeys.map s.elemOf).foldlM (fun st e => st.add (mkSearch e) none)
      SavedSearchStore.empty = Except.ok (midStore s) := by
  have hRL : ∀ x ∈ s.rootKeys, x ∈ s.lookup := fun x hx => (List.mem_filter.mp hx).1
  have hids1 := elems_map_id s wf s.rootKeys hRL
  rw [from_xml_pass1 _ _ (by
    show (SavedSearchStore.empty.lookup ++ _).Nodup
    rw [show SavedSearchStore.empty.lookup = [] from rfl, List.nil_append, hids1]
    exact rootKeys_nodup s wf)]
  unfold midStore
  rw [show SavedSearchStore.empty.lookup = [] from rfl,
      show SavedSearchStore.empty.data = [] from rfl,
      show SavedSearchStore.empty.heap = [] from rfl,
      List.nil_append, hids1]

theorem midStore_heap_root (s : SavedSearchStore) (wf : FlatWF s) (k : String)
    (hk : k ∈ s.rootKeys) :
    aget (midStore s).heap k = some (mkSearch (s.elemOf k)) := by
  have hRL : ∀ x ∈ s.rootKeys, x ∈ s.lookup := fun x hx => (List.mem_filter.mp hx).1
  show aget ((s.rootKeys.map s.elemOf).foldl (fun h e => aset h e.id (mkSearch e)) []) k
    = some (mkSearch (s.elemOf k))
  rw [pass1_heap _ _ _ (by rw [elems_map_id s wf s.rootKeys hRL]; exact rootKeys_nodup s wf),
      find?_elems_self s wf s.rootKeys hRL k hk]

theorem midStore_heap_out (s : SavedSearchStore) (wf : FlatWF s) (k : String)
    (hk : k ∉ s.rootKeys) : aget (midStore s).heap k = none := by
  have hRL : ∀ x ∈ s.rootKeys, x ∈ s.lookup := fun x hx => (List.mem_filter.mp hx).1
  show aget ((s.rootKeys.map s.elemOf).foldl (fun h e => aset h e.id (mkSearch e)) []) k
    = none
  rw [pass1_heap _ _ _ (by rw [elems_map_id s wf s.rootKeys hRL]; exact rootKeys_nodup s wf),
      find?_elems_none s wf s.rootKeys hRL k hk]
  rfl

/-- C2 amended: on every well-formed flat store (each entity a root or a
direct child of a root), `from_xml(to_xml(store))` on a fresh store
succeeds and produces a store with the same identifier set, the same root
set, the same parent/child relation, and equal name and query attributes
for every entity. -/
theorem from_xml_to_xml_roundtrip_flat (s : SavedSearchStore) (wf : FlatWF s) :
    ∃ s2, SavedSearchStore.empty.from_xml s.to_xml = Except.ok s2
      ∧ (∀ k, k ∈ s2.lookup ↔ k ∈ s.lookup)
      ∧ (∀ k, k ∈ s2.data ↔ k ∈ s.data)
      ∧ (∀ p c, s2.isChild p c ↔ s.isChild p c)
      ∧ (∀ k ∈ s.lookup, s2.attrsOf k = s.attrsOf k) := by
  have hRL : ∀ x ∈ s.rootKeys, x ∈ s.lookup := fun x hx => (List.mem_filter.mp hx).1
  have hCL : ∀ x ∈ s.childKeys, x ∈ s.lookup := fun x hx => (List.mem_filter.mp hx).1
  have hids2 := elems_map_id s wf s.childKeys hCL
  have hfresh : ∀ e ∈ s.childKeys.map s.elemOf, e.id ∉ (midStore s).lookup := by
    intro e he
    obtain ⟨k2, hk2, rfl⟩ := List.mem_map.mp he
    rw [elemOf_id s wf k2 (hCL k2 hk2)]
    show k2 ∉ s.rootKeys
    intro hmem
    exact ((mem_childKeys s k2).mp hk2).2 ((mem_rootKeys s wf k2).mp hmem)
  have hparent : ∀ e ∈ s.childKeys.map s.elemOf, ∃ r, e.parent = some r
      ∧ truthyOpt (some r) = true ∧ r ∈ (midStore s).lookup
      ∧ ∀ e2 ∈ s.childKeys.map s.elemOf, ¬ e2.id = r := by
    intro e he
    obtain ⟨k2, hk2, rfl⟩ := List.mem_map.mp he
    obtain ⟨hk2l, hk2d⟩ := (mem_childKeys s k2).mp hk2
    rcases wf.lookup_cover k2 hk2l with h1 | ⟨r, hr, hcr⟩
    · exact absurd h1 hk2d
    refine ⟨r, elemOf_parent_child s wf r k2 hr hcr,
      wf.ids_truthy r (wf.data_sub r hr), ?_, ?_⟩
    · show r ∈ s.rootKeys
      exact (mem_rootKeys s wf r).mpr hr
    · intro e2 he2
      obtain ⟨k3, hk3, rfl⟩ := List.mem_map.mp he2
      rw [elemOf_id s wf k3 (hCL k3 hk3)]
      intro hcc
      subst hcc
      exact ((mem_childKeys s k3).mp hk3).2 hr
  obtain ⟨s2, heq, hdata, hlookup, hheap⟩ := from_xml_pass2 (s.childKeys.map s.elemOf)
    (midStore s) (by rw [hids2]; exact childKeys_nodup s wf) hfresh hparent
  have fact_lookup : ∀ k, k ∈ s2.lookup ↔ k ∈ s.lookup := by
    intro k
    rw [hlookup]
    show k ∈ s.rootKeys ++ (s.childKeys.map s.elemOf).map SSElem.id ↔ k ∈ s.lookup
    rw [hids2, List.mem_append]
    constructor
    · rintro (h1 | h1)
      · exact hRL k h1
      · exact hCL k h1
    · intro h1
      by_cases hd : k ∈ s.data
      · exact Or.inl ((mem_rootKeys s wf k).mpr hd)
      · exact Or.inr ((mem_childKeys s k).mpr ⟨h1, hd⟩)
  have fact_data : ∀ k, k ∈ s2.data ↔ k ∈ s.data := by
    intro k
    rw [hdata]
    show k ∈ s.rootKeys ↔ k ∈ s.data
    exact mem_rootKeys s wf k
  have fact_child_aget : ∀ k, k ∈ s.childKeys →
      aget s2.heap k = some (mkSearch (s.elemOf k)) := by
    intro k hk
    rw [hheap k, find?_elems_self s wf s.childKeys hCL k hk]
  have fact_root_aget : ∀ k, k ∈ s.rootKeys → aget s2.heap k
      = some { mkSearch (s.elemOf k) with
               children := childAdds (s.childKeys.map s.elemOf) k } := by
    intro k hk
    rw [hheap k, find?_elems_none s wf s.childKeys hCL k
          (fun hmem => ((mem_childKeys s k).mp hmem).2 ((mem_rootKeys s wf k).mp hk)),
        midStore_heap_root s wf k hk]
    simp [mkSearch]
  have fact_out_aget : ∀ k, k ∉ s.lookup → aget s2.heap k = none := by
    intro k hk
    rw [hheap k, find?_elems_none s wf s.childKeys hCL k (fun hm => hk (hCL k hm)),
        midStore_heap_out s wf k (fun hm => hk (hRL k hm))]
    rfl
  have fact_attrs : ∀ k ∈ s.lookup, s2.attrsOf k = s.attrsOf k := by
    intro k hk
    rw [← elemOf_attrs s wf k hk]
    unfold SavedSearchStore.attrsOf
    by_cases hd : k ∈ s.data
    · rw [fact_root_aget k ((mem_rootKeys s wf k).mpr hd)]
      rfl
    · rw [fact_child_aget k ((mem_childKeys s k).mpr ⟨hk, hd⟩)]
      rfl
  have fact_children : ∀ p c, p ∈ s.lookup →
      (c ∈ s2.childrenOf p ↔ c ∈ s.childrenOf p) := by
    intro p c hp
    by_cases hd : p ∈ s.data
    · rw [childrenOf_of_aget s2 p _ (fact_root_aget p ((mem_rootKeys s wf p).mpr hd))]
      show c ∈ childAdds (s.childKeys.map s.elemOf) p ↔ c ∈ s.childrenOf p
      rw [mem_childAdds]
      constructor
      · rintro ⟨e, he, hpe, hide⟩
        obtain ⟨k2, hk2, rfl⟩ := List.mem_map.mp he
        rw [elemOf_id s wf k2 (hCL k2 hk2)] at hide
        subst hide
        obtain ⟨hcl, hcd⟩ := (mem_childKeys s k2).mp hk2
        rcases wf.lookup_cover k2 hcl with h1 | ⟨r, hr, hcr⟩
        · exact absurd h1 hcd
        · rw [elemOf_parent_child s wf r k2 hr hcr] at hpe
          obtain rfl := Option.some.inj hpe
          exact hcr
      · intro hc
        have hccl : c ∈ s.childKeys := (mem_childKeys s c).mpr
          ⟨wf.child_in_lookup p hd c hc, wf.child_not_root p hd c hc⟩
        exact ⟨s.elemOf c, List.mem_map_of_mem _ hccl,
          elemOf_parent_child s wf p c hd hc, elemOf_id s wf c (hCL c hccl)⟩
    · rw [childrenOf_of_aget s2 p _ (fact_child_aget p ((mem_childKeys s p).mpr ⟨hp, hd⟩))]
      show c ∈ (mkSearch (s.elemOf p)).children ↔ c ∈ s.childrenOf p
      rcases wf.lookup_cover p hp with h1 | ⟨r, hr, hcr⟩
      · exact absurd h1 hd
      · rw [wf.flat r hr p hcr]
        simp [mkSearch]
  refine ⟨s2, ?_, fact_lookup, fact_data, ?_, fact_attrs⟩
  · unfold SavedSearchStore.from_xml
    rw [to_xml_eq_map s wf, to_xml_filter_roots s wf, to_xml_filter_children s wf,
        pass1_result s wf, except_bind_ok]
    exact heq
  · intro p c
    unfold SavedSearchStore.isChild
    by_cases hp : p ∈ s.lookup
    · exact and_congr (fact_lookup p) (fact_children p c hp)
    · constructor
      · rintro ⟨h1, _⟩
        exact absurd ((fact_lookup p).mp h1) hp
      · rintro ⟨h1, _⟩
        exact absurd h1 hp

theorem flatPair_wf : FlatWF flatPair :=
  ⟨by decide, by decide, by decide, by decide, by decide, by decide, by decide,
   by decide, by decide, by decide, by decide⟩

/-- Witness for the amended C2 theorem at the concrete flat store holding
the root r with direct child k. -/
theorem from_xml_to_xml_roundtrip_flat_witness :
    ∃ s2, SavedSearchStore.empty.from_xml flatPair.to_xml = Except.ok s2
      ∧ (∀ k, k ∈ s2.lookup ↔ k ∈ flatPair.lookup)
      ∧ (∀ k, k ∈ s2.data ↔ k ∈ flatPair.data)
      ∧ (∀ p c, s2.isChild p c ↔ flatPair.isChild p c)
      ∧ (∀ k ∈ flatPair.lookup, s2.attrsOf k = flatPair.attrsOf k) :=
  from_xml_to_xml_roundtrip_flat flatPair flatPair_wf
